import Mathlib

/-!
Verification of the MemoryStream backend memory vault
(`backend/server.js`): the encryption wrappers, the relevance scorer and
the create / list / search handlers, embedded shallowly in Lean.

Modelling conventions:

* JavaScript numbers appearing in the scorer are modelled as `Option ℚ`
  where `none` stands for `NaN` (which can arise from the `0/0` in the
  context-similarity branch); numbers that can never be `NaN` are plain
  `ℚ`.
* ISO timestamp strings (written by `new Date().toISOString()` and parsed
  back through `new Date(...)`) are modelled by their epoch-millisecond
  value as a rational.
* The RSA primitive (`crypto.publicEncrypt` / `crypto.privateDecrypt`)
  and JSON serialisation are external libraries, out of the repository;
  they are modelled as an ideal asymmetric scheme: a ciphertext records
  the public key it was produced under and the serialised payload, and
  decryption succeeds exactly when the private key matches that public
  key, failing with `DecryptionError` otherwise, per the documented
  contract of the library.
* `Array.prototype.sort` with a numeric comparator `b.k - a.k` is a
  stable descending sort on `k`; it is modelled by a stable insertion
  sort (any two stable sorts under the same comparator agree).
* `[...db.memories.values()]` enumerates a JavaScript `Map` in insertion
  order; the store is therefore a list of memories in insertion order.
* Record fields that no handler under scrutiny reads (entities, metadata,
  permissions, user preferences and non-counter stats) are omitted.
* Query-string parameters arrive as strings (`Option String`, `none` when
  absent); the JavaScript `ToNumber` / `parseInt` coercions are modelled
  for non-negative decimal inputs, other strings mapping to `NaN`.
-/

/-! ### Ideal model of the encryption layer (`EncryptionManager`) -/

/-- A ciphertext blob: `encryptData` serialises the payload and encrypts
it under a public key. In the ideal model the blob records the key id it
was encrypted under together with the payload. -/
structure Ciphertext where
  keyId : Nat
  payload : String
deriving DecidableEq

/-- The decryption failure of `crypto.privateDecrypt` (mismatched key or
malformed blob), caught per-record in the search handler. -/
inductive CryptoError where
  | DecryptionError
deriving DecidableEq

/-- `EncryptionManager.encryptData(data, publicKey)`: serialise and
encrypt under `publicKey`. Key pairs are indexed by `Nat`; a pair's
public and private halves carry the same index. -/
def encryptData (data : String) (publicKey : Nat) : Ciphertext :=
  ⟨publicKey, data⟩

/-- `EncryptionManager.decryptData(encryptedData, privateKey)`: inverse
of `encryptData` when the private key matches the public key the blob
was produced under; throws (here: returns) `DecryptionError` otherwise. -/
def decryptData (c : Ciphertext) (privateKey : Nat) : Except CryptoError String :=
  if c.keyId = privateKey then .ok c.payload else .error .DecryptionError

/-! ### Data model -/

/-- A stored memory record (`db.memories` entry), as built by the
`POST /api/memories` handler. The plaintext content is not a field:
only `encryptedContent` is stored. -/
structure Memory where
  id : String
  userId : String
  encryptedContent : Ciphertext
  type : String
  source : String
  tags : List String
  timestamp : ℚ
  accessCount : Nat
  relevanceScore : ℚ
deriving DecidableEq

/-- A user record (`db.users` entry), restricted to the fields the
memory handlers read. -/
structure User where
  id : String
  publicKey : Nat
  privateKey : Nat
  totalMemories : Nat
deriving DecidableEq

/-- The in-memory database, in insertion order. -/
structure Store where
  users : List User
  memories : List Memory
deriving DecidableEq

/-! ### Relevance scoring (`MemoryManager.calculateRelevanceScore`) -/

/-- `String.prototype.toLowerCase()` (ASCII case mapping, which covers
every string the handlers manufacture). -/
def strToLower (s : String) : String :=
  String.mk (s.toList.map Char.toLower)

/-- `Array.prototype.join(sep)` over strings. -/
def joinWith (sep : String) : List String → String
  | [] => ""
  | [s] => s
  | s :: rest => s ++ sep ++ joinWith sep rest

/-- Helper for `splitOnChar`: `acc` holds the current chunk reversed. -/
def splitOnCharAux (sep : Char) : List Char → List Char → List String
  | [], acc => [String.mk acc.reverse]
  | c :: cs, acc =>
    if c = sep then String.mk acc.reverse :: splitOnCharAux sep cs []
    else splitOnCharAux sep cs (c :: acc)

/-- `String.prototype.split(sep)` for a single-character separator:
`"a  b".split(' ') = ["a", "", "b"]`, `"".split(' ') = [""]`. -/
def splitOnChar (s : String) (sep : Char) : List String :=
  splitOnCharAux sep s.toList []

/-! Rational arithmetic, in a kernel-computable form. The `Rat`
operations of the ambient library are `@[irreducible]`, which blocks
evaluation inside proofs, so the embedding uses the `mkRat` normal-form
equivalents below; the lemmas `qAdd_eq`, `qSub_eq`, `qMul_eq`,
`qDivNat_eq` and `qOfNat_eq` identify them with `+`, `-`, `*`, `/` and
the natural-number cast. -/

/-- The rational value of a natural number, computably. -/
def qOfNat (n : Nat) : ℚ := mkRat n 1

/-- Rational addition, computably. -/
def qAdd (a b : ℚ) : ℚ := mkRat (a.num * b.den + b.num * a.den) (a.den * b.den)

/-- Rational subtraction, computably. -/
def qSub (a b : ℚ) : ℚ := mkRat (a.num * b.den - b.num * a.den) (a.den * b.den)

/-- Rational multiplication, computably. -/
def qMul (a b : ℚ) : ℚ := mkRat (a.num * b.num) (a.den * b.den)

/-- Division of a rational by a natural number (`k ≠ 0` at every use
site), computably. -/
def qDivNat (a : ℚ) (k : Nat) : ℚ := mkRat a.num (a.den * k)

/-- `Math.max(a, b)` on non-`NaN` numbers. -/
def jsMax (a b : ℚ) : ℚ := if a ≤ b then b else a

/-- `Math.min(a, b)` on non-`NaN` numbers. -/
def jsMin (a b : ℚ) : ℚ := if a ≤ b then a else b

/-- Whether `needle` occurs at the start of `hay`. -/
def listStartsWith : List Char → List Char → Bool
  | [], _ => true
  | _ :: _, [] => false
  | a :: as, b :: bs => a = b && listStartsWith as bs

/-- Whether `needle` occurs contiguously somewhere in `hay`. -/
def listHasSub (needle : List Char) : List Char → Bool
  | [] => needle.isEmpty
  | b :: bs => listStartsWith needle (b :: bs) || listHasSub needle bs

/-- JavaScript substring test `hay.includes(needle)`. -/
def strIncludes (hay needle : String) : Bool :=
  listHasSub needle.toList hay.toList

/-- The text a memory is matched against:
`(memory.content + ' ' + (memory.tags || []).join(' ')).toLowerCase()`.
Stored records have no `content` property, so `memory.content` is
`undefined` and string concatenation coerces it to the literal string
`"undefined"`. -/
def memoryText (m : Memory) : String :=
  strToLower ("undefined" ++ " " ++ joinWith " " m.tags)

/-- Number of context keywords (lower-cased) found as substrings of the
memory text: `contextKeywords.filter(k => memoryText.includes(k)).length`. -/
def keywordMatches (m : Memory) (ks : List String) : Nat :=
  ((ks.map strToLower).filter (fun k => strIncludes (memoryText m) k)).length

/-- The context-similarity contribution of the scorer. `context.keywords`
is truthiness-tested, so the branch is taken for every present array,
including the empty one, where `matches / contextKeywords.length` is the
JavaScript `0/0 = NaN` (modelled as `none`). -/
def contextOverlapTerm (m : Memory) (keywords : Option (List String)) : Option ℚ :=
  match keywords with
  | none => some 0
  | some ks =>
    if ks.length = 0 then none
    else some (qMul (qDivNat (qOfNat (keywordMatches m ks)) ks.length) 5)

/-- `MemoryManager.calculateRelevanceScore(memory, context)` at current
time `now` (epoch milliseconds): recency term
`max(0, 10 - daysSince) * 0.1`, frequency term `accessCount * 0.05`,
context-overlap term, then `Math.min(score, 10)`. A `NaN` overlap term
poisons the sum and the `min` (`Math.min(NaN, 10) = NaN`). -/
def calculateRelevanceScore (m : Memory) (keywords : Option (List String))
    (now : ℚ) : Option ℚ :=
  let daysSince : ℚ := qDivNat (qSub now m.timestamp) (1000 * 60 * 60 * 24)
  let base : ℚ := qAdd (qMul (jsMax 0 (qSub 10 daysSince)) (mkRat 1 10))
    (qMul (qOfNat m.accessCount) (mkRat 1 20))
  match contextOverlapTerm m keywords with
  | none => none
  | some t => some (jsMin (qAdd base t) 10)

/-! ### Stable descending sort

`memories.sort((a, b) => key(b) - key(a))` is a stable descending sort on
`key` (ECMAScript `Array.prototype.sort` is stable). Any stable sort
under the same comparator yields the same list, so it is modelled by a
stable insertion sort. -/

/-- Insert `a` into a descending-sorted list, after every element whose
key is `≥ key a`, so that earlier elements keep priority on ties. -/
def insertDescBy {α : Type} (key : α → ℚ) (a : α) : List α → List α
  | [] => [a]
  | x :: xs => if key x < key a then a :: x :: xs else x :: insertDescBy key a xs

/-- Stable descending sort by `key`: fold the elements left-to-right into
a sorted accumulator. -/
def sortDescBy {α : Type} (key : α → ℚ) (l : List α) : List α :=
  l.foldl (fun acc a => insertDescBy key a acc) []

/-! ### Query parameter coercions for `GET /api/memories`

The handler destructures `{ limit = 50, offset = 0, ... } = req.query`;
present parameters are strings, absent ones default to the numbers 50
and 0. `memories.slice(offset, offset + parseInt(limit))` then coerces:
when `offset` is a string, `offset + parseInt(limit)` is string
concatenation and the result is converted back to a number by `slice`. -/

/-- Value of a non-empty decimal digit list. -/
def digitsVal (l : List Char) : Nat :=
  l.foldl (fun n c => 10 * n + (c.toNat - Char.toNat '0')) 0

/-- JavaScript `ToNumber` on a string, modelled for non-negative decimal
inputs; `""` converts to 0, non-numeric strings to `NaN` (`none`). -/
def jsToNumber (s : String) : Option Int :=
  if s = "" then some 0
  else if s.toList.all Char.isDigit then some (digitsVal s.toList) else none

/-- JavaScript `parseInt` on a string, modelled for non-negative decimal
inputs: the longest digit prefix, `NaN` (`none`) when there is none. -/
def jsParseInt (s : String) : Option Int :=
  let ds := s.toList.takeWhile Char.isDigit
  if ds.isEmpty then none else some (digitsVal ds)

/-- `String(n)` for a number that may be `NaN`. -/
def jsNumToString : Option Int → String
  | none => "NaN"
  | some n => toString n

/-- `Array.prototype.slice(s, e)` restricted to non-negative indices;
`NaN` indices coerce to 0. -/
def jsSlice {α : Type} (l : List α) (s e : Option Int) : List α :=
  (l.take (e.getD 0).toNat).drop (s.getD 0).toNat

/-! ### `GET /api/memories` (list handler) -/

/-- The query parameters of a list request; present parameters are the
raw query strings. -/
structure ListParams where
  limit : Option String
  offset : Option String
  type : Option String
  source : Option String
  tags : Option String
deriving DecidableEq

/-- The metadata-only projection returned for each listed memory. -/
structure MemorySummary where
  id : String
  type : String
  source : String
  tags : List String
  timestamp : ℚ
  accessCount : Nat
  relevanceScore : ℚ
deriving DecidableEq

/-- The body of a list response. -/
structure ListResponse where
  memories : List MemorySummary
  total : Nat
deriving DecidableEq

/-- The summary projection of a stored memory. -/
def summaryOf (m : Memory) : MemorySummary :=
  ⟨m.id, m.type, m.source, m.tags, m.timestamp, m.accessCount, m.relevanceScore⟩

/-- The three `if (param)`-guarded filters of the list handler; an empty
string is falsy in JavaScript, so it disables its filter like an absent
parameter. -/
def applyListFilters (p : ListParams) (l : List Memory) : List Memory :=
  let l1 := match p.type with
    | some t => if t = "" then l else l.filter (fun m => m.type = t)
    | none => l
  let l2 := match p.source with
    | some s => if s = "" then l1 else l1.filter (fun m => m.source = s)
    | none => l1
  match p.tags with
  | some ts =>
    if ts = "" then l2
    else
      let tagList := ts.splitOn ","
      l2.filter (fun m => tagList.any (fun tag => m.tags.contains tag))
  | none => l2

/-- Start index of the pagination slice: `ToNumber(offset)`, 0 when the
parameter is absent (numeric default). -/
def listSliceStart (p : ListParams) : Option Int :=
  match p.offset with
  | none => some 0
  | some o => jsToNumber o

/-- End index of the pagination slice: `offset + parseInt(limit)`. With
the numeric default offset this is number addition; with a string offset
it is string concatenation followed by `ToNumber`. -/
def listSliceEnd (p : ListParams) : Option Int :=
  let lim := jsParseInt (p.limit.getD "50")
  match p.offset with
  | none => lim
  | some o => jsToNumber (o ++ jsNumToString lim)

/-- The user's matching records, in store (insertion) order: the
ownership filter followed by the optional type/source/tags filters. -/
def listFiltered (st : Store) (uid : String) (p : ListParams) : List Memory :=
  applyListFilters p (st.memories.filter (fun m => m.userId = uid))

/-- The `GET /api/memories` handler: filter to the caller's records,
apply filters, sort by timestamp descending, paginate, project to
summaries. The handler performs no store mutation. -/
def listMemories (st : Store) (uid : String) (p : ListParams) :
    ListResponse × Store :=
  let filtered := listFiltered st uid p
  let sorted := sortDescBy (fun m => m.timestamp) filtered
  let page := jsSlice sorted (listSliceStart p) (listSliceEnd p)
  (⟨page.map summaryOf, filtered.length⟩, st)

/-! ### `POST /api/memories/search` (search handler) -/

/-- A scored shallow copy `{...m, relevanceScore}` built by the search
handler: the original stored record together with the freshly recomputed
score (possibly `NaN`). Mutations of the copy do not reach the store. -/
structure ScoredMemory where
  mem : Memory
  score : Option ℚ
deriving DecidableEq

/-- One decrypted search result. -/
structure SearchResult where
  id : String
  content : String
  type : String
  source : String
  tags : List String
  timestamp : ℚ
  relevanceScore : ℚ
deriving DecidableEq

/-- The body of a search response. -/
structure SearchResponse where
  query : String
  results : List SearchResult
  totalFound : Nat
deriving DecidableEq

/-- The keyword list of the scoring context,
`{ keywords: query.toLowerCase().split(' '), ...context }`: the spread
of the caller's context comes second, so a caller-supplied
`context.keywords` overrides the query tokens. -/
def searchKeywords (query : String) (ctxKeywords : Option (List String)) :
    List String :=
  match ctxKeywords with
  | some ks => ks
  | none => splitOnChar (strToLower query) ' '

/-- `m.relevanceScore > 0.5` on a possibly-`NaN` score: every comparison
with `NaN` is false. -/
def scoreAboveThreshold (s : Option ℚ) : Bool :=
  match s with
  | some q => mkRat 1 2 < q
  | none => false

/-- The sort key used on the already-filtered scored copies; after the
threshold filter every score is a number. -/
def scoreKey (sm : ScoredMemory) : ℚ :=
  sm.score.getD 0

/-- The scored copies of the caller's records. -/
def scoredMemories (st : Store) (uid query : String)
    (ctxKeywords : Option (List String)) (now : ℚ) : List ScoredMemory :=
  (st.memories.filter (fun m => m.userId = uid)).map
    (fun m => ⟨m, calculateRelevanceScore m (some (searchKeywords query ctxKeywords)) now⟩)

/-- The records selected for decryption: threshold filter, stable sort by
score descending, truncation to `limit`. -/
def searchSelected (st : Store) (uid query : String)
    (ctxKeywords : Option (List String)) (limit : Nat) (now : ℚ) :
    List ScoredMemory :=
  ((sortDescBy scoreKey
      ((scoredMemories st uid query ctxKeywords now).filter
        (fun sm => scoreAboveThreshold sm.score))).take limit)

/-- Decrypt one selected record: on success the result row, on
`DecryptionError` `none` (`return null`, later dropped by
`.filter(Boolean)`). -/
def decryptRow (user : User) (sm : ScoredMemory) : Option SearchResult :=
  match decryptData sm.mem.encryptedContent user.privateKey with
  | .ok content =>
    some ⟨sm.mem.id, content, sm.mem.type, sm.mem.source, sm.mem.tags,
      sm.mem.timestamp, sm.score.getD 0⟩
  | .error _ => none

/-- The `POST /api/memories/search` handler. Returns `none` for the 404
when the user id does not resolve. The `accessCount` increment at line
423 of the source mutates the scored shallow copy (built by the object
spread at line 407), not the record held in `db.memories`, so the store
comes back unchanged. -/
def searchMemories (st : Store) (uid query : String)
    (ctxKeywords : Option (List String)) (limit : Nat) (now : ℚ) :
    Option SearchResponse × Store :=
  match st.users.find? (fun u => u.id = uid) with
  | none => (none, st)
  | some user =>
    let results :=
      (searchSelected st uid query ctxKeywords limit now).filterMap (decryptRow user)
    (some ⟨query, results, results.length⟩, st)

/-! ### `POST /api/memories` (create handler) -/

/-- The `POST /api/memories` handler, for an already-validated body.
`memoryId` stands for the generated `crypto.randomUUID()` and `now` for
the creation instant. Returns the new id (`none` for the 404 when the
user id does not resolve), appends the record to the store in insertion
order and increments the owner's total-memory counter. The new record
starts with `accessCount = 0` and `relevanceScore = 1.0`. -/
def createMemory (st : Store) (uid content type source : String)
    (tags : List String) (memoryId : String) (now : ℚ) :
    Option String × Store :=
  match st.users.find? (fun u => u.id = uid) with
  | none => (none, st)
  | some user =>
    let memory : Memory :=
      ⟨memoryId, user.id, encryptData content user.publicKey,
        type, source, tags, now, 0, 1⟩
    (some memoryId,
      ⟨st.users.map (fun u =>
          if u.id = uid then ⟨u.id, u.publicKey, u.privateKey, u.totalMemories + 1⟩ else u),
        st.memories ++ [memory]⟩)

/-! ### Operation sequences over the store -/

/-- One request against the memory endpoints. -/
inductive Op where
  | create (uid content type source : String) (tags : List String)
      (memoryId : String) (now : ℚ)
  | list (uid : String) (p : ListParams)
  | search (uid query : String) (ctxKeywords : Option (List String))
      (limit : Nat) (now : ℚ)

/-- The store after one request. -/
def applyOp (st : Store) : Op → Store
  | .create uid c t s tags memoryId now => (createMemory st uid c t s tags memoryId now).2
  | .list uid p => (listMemories st uid p).2
  | .search uid q ck lim now => (searchMemories st uid q ck lim now).2

/-- The store after a sequence of requests. -/
def execOps (init : Store) (ops : List Op) : Store :=
  ops.foldl applyOp init

/-! ### Concrete instances used by witnesses and counterexamples -/

/-- A list request with every parameter absent (all defaults). -/
def defaultListParams : ListParams := ⟨none, none, none, none, none⟩

/-- A registered user holding key pair 0. -/
def demoUser : User := ⟨"u1", 0, 0, 0⟩

/-- A store with one user and no memories. -/
def demoStore0 : Store := ⟨[demoUser], []⟩

/-- `demoStore0` after creating one memory with content
`"budget meeting"` and tags `["budget"]` at time 0. -/
def demoStore1 : Store :=
  (createMemory demoStore0 "u1" "budget meeting" "note" "chat" ["budget"] "m1" 0).2

/-- `demoStore0` after creating one memory whose content
`"quarterly budget report"` mentions budget but whose tags do not. -/
def demoStore2 : Store :=
  (createMemory demoStore0 "u1" "quarterly budget report" "note" "chat" ["finance"] "m2" 0).2

/-- A second user, holding key pair 5, with no memories. -/
def demoOtherUser : User := ⟨"u2", 5, 5, 0⟩

/-- A store in which the user owns one record encrypted under their own
key pair and one record encrypted under key pair 1 (undecryptable with
the user's private key 0); both carry the tag `"budget"`. -/
def demoMixedStore : Store :=
  ⟨[demoUser],
    [⟨"g1", "u1", ⟨0, "alpha"⟩, "note", "chat", ["budget"], 0, 0, 1⟩,
     ⟨"b1", "u1", ⟨1, "beta"⟩, "note", "chat", ["budget"], 0, 0, 1⟩]⟩

/-- A store holding records of two distinct users. -/
def demoTwoUserStore : Store :=
  ⟨[demoUser, demoOtherUser],
    [⟨"g1", "u1", ⟨0, "alpha"⟩, "note", "chat", ["budget"], 0, 0, 1⟩,
     ⟨"h1", "u2", ⟨5, "gamma"⟩, "note", "chat", ["budget"], 7, 0, 1⟩]⟩
/-- The denominator of a rational is nonzero as an integer. -/
theorem qden_int_ne (a : ℚ) : ((a.den : ℤ)) ≠ 0 :=
  Int.natCast_ne_zero.mpr a.den_ne_zero

/-- `qOfNat` agrees with the natural-number cast. -/
theorem qOfNat_eq (n : Nat) : qOfNat n = (n : ℚ) := by
  rw [qOfNat, Rat.mkRat_eq_divInt, Rat.divInt_eq_div]
  push_cast
  simp

/-- `qAdd` agrees with rational addition. -/
theorem qAdd_eq (a b : ℚ) : qAdd a b = a + b := by
  conv_rhs => rw [← Rat.num_divInt_den a, ← Rat.num_divInt_den b]
  rw [Rat.divInt_add_divInt _ _ (qden_int_ne a) (qden_int_ne b), qAdd,
    Rat.mkRat_eq_divInt]
  push_cast
  rfl

/-- `qSub` agrees with rational subtraction. -/
theorem qSub_eq (a b : ℚ) : qSub a b = a - b := by
  conv_rhs => rw [← Rat.num_divInt_den a, ← Rat.num_divInt_den b]
  rw [Rat.divInt_sub_divInt _ _ (qden_int_ne a) (qden_int_ne b), qSub,
    Rat.mkRat_eq_divInt]
  push_cast
  rfl

/-- `qMul` agrees with rational multiplication. -/
theorem qMul_eq (a b : ℚ) : qMul a b = a * b := by
  conv_rhs => rw [← Rat.num_divInt_den a, ← Rat.num_divInt_den b]
  rw [Rat.divInt_mul_divInt _ _ (qden_int_ne a) (qden_int_ne b), qMul,
    Rat.mkRat_eq_divInt]
  push_cast
  rfl

/-- `qDivNat` agrees with division by the cast of the natural number. -/
theorem qDivNat_eq (a : ℚ) (k : Nat) : qDivNat a k = a / (k : ℚ) := by
  rcases Nat.eq_zero_or_pos k with hk | hk
  · subst hk
    simp [qDivNat, Rat.mkRat_eq_divInt]
  · have hk2 : ((k : ℤ)) ≠ 0 := Int.natCast_ne_zero.mpr (Nat.pos_iff_ne_zero.mp hk)
    rw [qDivNat, Rat.mkRat_eq_divInt, Rat.divInt_eq_div]
    push_cast
    conv_rhs => rw [← Rat.num_div_den a]
    rw [div_div]

/-- `jsMax` is `max`. -/
theorem jsMax_eq (a b : ℚ) : jsMax a b = max a b := (max_def a b).symm

/-- `jsMin` is `min`. -/
theorem jsMin_eq (a b : ℚ) : jsMin a b = min a b := (min_def a b).symm

/-- Inserting permutes: `insertDescBy key a l` is `a :: l` up to order. -/
theorem insertDescBy_perm {α : Type} (key : α → ℚ) (a : α) (l : List α) :
    (insertDescBy key a l).Perm (a :: l) := by
  induction l with
  | nil => simp [insertDescBy]
  | cons x xs ih =>
    rw [insertDescBy]
    split
    · exact List.Perm.refl _
    · exact (ih.cons x).trans (List.Perm.swap a x xs)

/-- The fold underlying `sortDescBy` permutes the accumulator and input. -/
theorem foldl_insertDescBy_perm {α : Type} (key : α → ℚ) (l acc : List α) :
    (l.foldl (fun acc a => insertDescBy key a acc) acc).Perm (acc ++ l) := by
  induction l generalizing acc with
  | nil => simp
  | cons a l ih =>
    refine (ih (insertDescBy key a acc)).trans ?_
    exact ((insertDescBy_perm key a acc).append_right l).trans List.perm_middle.symm

/-- `sortDescBy` permutes its input. -/
theorem sortDescBy_perm {α : Type} (key : α → ℚ) (l : List α) :
    (sortDescBy key l).Perm l := by
  simpa [sortDescBy] using foldl_insertDescBy_perm key l []

/-- Inserting preserves descending sortedness. -/
theorem insertDescBy_pairwise {α : Type} (key : α → ℚ) (a : α) (l : List α)
    (h : l.Pairwise (fun x y => key y ≤ key x)) :
    (insertDescBy key a l).Pairwise (fun x y => key y ≤ key x) := by
  induction l with
  | nil => simp [insertDescBy]
  | cons x xs ih =>
    rcases h with _ | ⟨hx, hxs⟩
    rw [insertDescBy]
    split
    · rename_i hlt
      refine List.Pairwise.cons ?_ (List.Pairwise.cons hx hxs)
      intro y hy
      rcases List.mem_cons.mp hy with rfl | hy
      · exact le_of_lt hlt
      · exact le_trans (hx y hy) (le_of_lt hlt)
    · rename_i hge
      refine List.Pairwise.cons ?_ (ih hxs)
      intro y hy
      rcases List.mem_cons.mp ((insertDescBy_perm key a xs).mem_iff.mp hy) with rfl | hy
      · exact not_lt.mp hge
      · exact hx y hy

/-- The fold underlying `sortDescBy` keeps a sorted accumulator sorted. -/
theorem foldl_insertDescBy_pairwise {α : Type} (key : α → ℚ) (l acc : List α)
    (h : acc.Pairwise (fun x y => key y ≤ key x)) :
    (l.foldl (fun acc a => insertDescBy key a acc) acc).Pairwise
      (fun x y => key y ≤ key x) := by
  induction l generalizing acc with
  | nil => exact h
  | cons a l ih => exact ih _ (insertDescBy_pairwise key a acc h)

/-- `sortDescBy` sorts descending by the key. -/
theorem sortDescBy_pairwise {α : Type} (key : α → ℚ) (l : List α) :
    (sortDescBy key l).Pairwise (fun x y => key y ≤ key x) :=
  foldl_insertDescBy_pairwise key l [] List.Pairwise.nil

/-- Inserting into a descending-sorted list places the new element after
every element of equal key. -/
theorem insertDescBy_filter_eq {α : Type} (key : α → ℚ) (q : ℚ) (a : α)
    (l : List α) (h : l.Pairwise (fun x y => key y ≤ key x)) :
    (insertDescBy key a l).filter (fun x => decide (key x = q)) =
      l.filter (fun x => decide (key x = q)) ++
        (if key a = q then [a] else []) := by
  induction l with
  | nil =>
    by_cases hq : key a = q <;> simp [insertDescBy, List.filter_cons, hq]
  | cons x xs ih =>
    rcases h with _ | ⟨hx, hxs⟩
    rw [insertDescBy]
    split
    · rename_i hlt
      by_cases hq : key a = q
      · have hnil : (x :: xs).filter (fun y => decide (key y = q)) = [] := by
          apply List.filter_eq_nil_iff.mpr
          intro y hy
          simp only [decide_eq_true_eq]
          have hyx : key y ≤ key x := by
            rcases List.mem_cons.mp hy with rfl | hy
            · exact le_refl _
            · exact hx y hy
          exact ne_of_lt (lt_of_le_of_lt hyx (hq ▸ hlt))
        simp [List.filter_cons, hq, hnil]
      · simp [List.filter_cons, hq]
    · rename_i hge
      by_cases hx2 : key x = q <;>
        simp [List.filter_cons, hx2, ih hxs]

/-- The fold underlying `sortDescBy` preserves, for every key value, the
relative order of equal-key elements (stability). -/
theorem foldl_insertDescBy_filter_eq {α : Type} (key : α → ℚ) (q : ℚ)
    (l acc : List α) (h : acc.Pairwise (fun x y => key y ≤ key x)) :
    (l.foldl (fun acc a => insertDescBy key a acc) acc).filter
        (fun x => decide (key x = q)) =
      acc.filter (fun x => decide (key x = q)) ++
        l.filter (fun x => decide (key x = q)) := by
  induction l generalizing acc with
  | nil => simp
  | cons a l ih =>
    rw [List.foldl_cons, ih _ (insertDescBy_pairwise key a acc h),
      insertDescBy_filter_eq key q a acc h]
    by_cases hq : key a = q <;> simp [List.filter_cons, hq, List.append_assoc]

/-- Stability of `sortDescBy`: for every key value `q`, the elements of
key `q` appear in the output in their input order. -/
theorem sortDescBy_filter_eq {α : Type} (key : α → ℚ) (q : ℚ) (l : List α) :
    (sortDescBy key l).filter (fun x => decide (key x = q)) =
      l.filter (fun x => decide (key x = q)) := by
  simpa [sortDescBy] using foldl_insertDescBy_filter_eq key q l [] List.Pairwise.nil

/-- Membership in a slice implies membership in the list. -/
theorem mem_of_mem_jsSlice {α : Type} {x : α} {l : List α} {s e : Option Int}
    (h : x ∈ jsSlice l s e) : x ∈ l :=
  List.mem_of_mem_take (List.mem_of_mem_drop h)

/-- The optional type/source/tags filters only discard records. -/
theorem applyListFilters_subset (p : ListParams) (l : List Memory) :
    ∀ m ∈ applyListFilters p l, m ∈ l := by
  rcases p with ⟨lim, off, ty, so, tg⟩
  intro m h
  rcases ty with _ | t <;> rcases so with _ | s <;> rcases tg with _ | ts <;>
    simp only [applyListFilters] at h <;>
    (try split_ifs at h) <;>
    (try simp only [List.mem_filter] at h) <;>
    tauto

/-- Every record selected for decryption by a search is a stored record
of the requesting user, carries its freshly recomputed score, and passed
the relevance threshold. -/
theorem mem_searchSelected {st : Store} {uid query : String}
    {ck : Option (List String)} {limit : Nat} {now : ℚ} {sm : ScoredMemory}
    (h : sm ∈ searchSelected st uid query ck limit now) :
    sm.mem ∈ st.memories ∧ sm.mem.userId = uid ∧
      sm.score = calculateRelevanceScore sm.mem (some (searchKeywords query ck)) now ∧
      scoreAboveThreshold sm.score = true := by
  unfold searchSelected at h
  have h1 := List.mem_of_mem_take h
  have h2 := (sortDescBy_perm scoreKey _).mem_iff.mp h1
  obtain ⟨hmem, hpred⟩ := List.mem_filter.mp h2
  unfold scoredMemories at hmem
  obtain ⟨m, hm, heq⟩ := List.mem_map.mp hmem
  obtain ⟨hm1, hm2⟩ := List.mem_filter.mp hm
  subst heq
  exact ⟨hm1, by simpa using hm2, rfl, hpred⟩

/-- C1: per-user isolation. Every summary returned by the list handler
and every result returned by the search handler stems from a stored
record whose `userId` is the requesting user's id, for every filter
combination, query, context and limit. -/
theorem handlers_return_only_own_records
    (st : Store) (uid : String) (p : ListParams) (query : String)
    (ck : Option (List String)) (limit : Nat) (now : ℚ) :
    (∀ s ∈ (listMemories st uid p).1.memories,
      ∃ m, m ∈ st.memories ∧ m.userId = uid ∧ s = summaryOf m) ∧
    (∀ resp, (searchMemories st uid query ck limit now).1 = some resp →
      ∀ r ∈ resp.results,
        ∃ m, m ∈ st.memories ∧ m.userId = uid ∧ r.id = m.id) := by
  constructor
  · intro s hs
    obtain ⟨m, hm, rfl⟩ := List.mem_map.mp hs
    have h1 := mem_of_mem_jsSlice hm
    have h2 := (sortDescBy_perm (fun m : Memory => m.timestamp) _).mem_iff.mp h1
    have h3 := applyListFilters_subset p _ m h2
    obtain ⟨hm1, hm2⟩ := List.mem_filter.mp h3
    exact ⟨m, hm1, by simpa using hm2, rfl⟩
  · intro resp hresp r hr
    unfold searchMemories at hresp
    rcases hfind : st.users.find? (fun u => u.id = uid) with _ | user <;>
      rw [hfind] at hresp
    · exact absurd hresp (by simp)
    · simp only [Option.some.injEq] at hresp
      subst hresp
      obtain ⟨sm, hsm, hrow⟩ := List.mem_filterMap.mp hr
      obtain ⟨hmem, huid, _, _⟩ := mem_searchSelected hsm
      refine ⟨sm.mem, hmem, huid, ?_⟩
      unfold decryptRow at hrow
      rcases hdec : decryptData sm.mem.encryptedContent user.privateKey with e | c <;>
        rw [hdec] at hrow
      · exact absurd hrow (by simp)
      · simp only [Option.some.injEq] at hrow
        subst hrow
        rfl

/-- Witness for C1 at a concrete two-user store: the summary returned to
user `"u1"` comes from a record owned by `"u1"`. -/
theorem handlers_return_only_own_records_witness :
    ∃ m, m ∈ demoTwoUserStore.memories ∧ m.userId = "u1" ∧
      (⟨"g1", "note", "chat", ["budget"], 0, 0, 1⟩ : MemorySummary) = summaryOf m :=
  (handlers_return_only_own_records demoTwoUserStore "u1" defaultListParams
      "budget" none 20 0).1
    ⟨"g1", "note", "chat", ["budget"], 0, 0, 1⟩ (by decide)

/-- C6: encryption round trip. For every payload, decrypting with the
matching private key recovers the payload exactly, and decrypting with
any other key pair's private key fails with `DecryptionError`. -/
theorem encrypt_decrypt_round_trip (content : String) (pub priv : Nat) :
    decryptData (encryptData content pub) pub = .ok content ∧
    (pub ≠ priv → decryptData (encryptData content pub) priv = .error .DecryptionError) := by
  constructor
  · simp [encryptData, decryptData]
  · intro h
    simp [encryptData, decryptData, h]

/-- Witness for C6 at a concrete payload and the mismatched pair (0, 1). -/
theorem encrypt_decrypt_round_trip_witness :
    decryptData (encryptData "budget meeting" 0) 0 = .ok "budget meeting" ∧
    decryptData (encryptData "budget meeting" 0) 1 = .error .DecryptionError :=
  ⟨(encrypt_decrypt_round_trip "budget meeting" 0 1).1,
   (encrypt_decrypt_round_trip "budget meeting" 0 1).2 (by decide)⟩

/-- C8 as stated is false: when the caller supplies `context.keywords`,
the object spread `{ keywords: query.split(' '), ...context }` replaces
the query tokens instead of merging them, so the query token `"budget"`
is not a keyword of the scoring context. -/
theorem query_tokens_dropped_when_context_keywords_supplied :
    "budget" ∈ splitOnChar (strToLower "budget") ' ' ∧
    "budget" ∉ searchKeywords "budget" (some ["x"]) := by
  decide

/-- C8 amended: the scoring context's keywords are exactly the
caller-supplied `context.keywords` when present (replacing the query
tokens); only when the caller supplies none are they the query,
lower-cased and split on the space character. -/
theorem search_keywords_override_or_query_tokens
    (query : String) (ks : List String) (tok : String) :
    searchKeywords query (some ks) = ks ∧
    (tok ∈ splitOnChar (strToLower query) ' ' → tok ∈ searchKeywords query none) :=
  ⟨rfl, fun h => h⟩

/-- Witness for C8 amended at a concrete query and context. -/
theorem search_keywords_override_or_query_tokens_witness :
    searchKeywords "budget plan" (some ["x"]) = ["x"] ∧
    "plan" ∈ searchKeywords "budget plan" none :=
  ⟨(search_keywords_override_or_query_tokens "budget plan" ["x"] "plan").1,
   (search_keywords_override_or_query_tokens "budget plan" ["x"] "plan").2 (by decide)⟩

/-- C2 fails on the code: the search over `demoStore1` returns memory
`"m1"` (so its stored `accessCount` should afterwards be 1), yet the
store comes back unchanged and a subsequent list still reports
`accessCount = 0` — the increment at line 423 lands on the shallow copy
made by the spread at line 407. -/
theorem access_count_increment_lost :
    (searchMemories demoStore1 "u1" "budget" none 20 0).1 =
      some ⟨"budget", [⟨"m1", "budget meeting", "note", "chat", ["budget"], 0, 6⟩], 1⟩ ∧
    (searchMemories demoStore1 "u1" "budget" none 20 0).2 = demoStore1 ∧
    (listMemories (searchMemories demoStore1 "u1" "budget" none 20 0).2 "u1"
        defaultListParams).1.memories.map (fun s => s.accessCount) = [0] := by
  decide

/-- C3 fails on the code: stored records carry no `content` property, so
the scorer matches keywords against the literal text `"undefined"`
followed by the tags. For the record created from content
`"quarterly budget report"` with tags `["finance"]`, the keyword
`"budget"` contributes 0 although it occurs in the content, while the
keyword `"undefined"` contributes the full 5. -/
theorem context_term_ignores_stored_content :
    demoStore2.memories.map (fun m => contextOverlapTerm m (some ["budget"])) =
      [some 0] ∧
    demoStore2.memories.map (fun m => contextOverlapTerm m (some ["undefined"])) =
      [some 5] := by
  decide

/-- C4 as stated fails: a present-but-empty `context.keywords` array is
truthy, so the scorer divides `0/0`, the score is `NaN`, and no rational
in `[0, 10]` is returned. -/
theorem score_bound_fails_on_empty_keyword_array :
    ¬ ∃ q : ℚ, calculateRelevanceScore
        ⟨"m1", "u1", ⟨0, "x"⟩, "note", "chat", [], 0, 0, 1⟩ (some []) 0 = some q ∧
      0 ≤ q ∧ q ≤ 10 := by
  rintro ⟨q, hq, -⟩
  rw [show calculateRelevanceScore
      ⟨"m1", "u1", ⟨0, "x"⟩, "note", "chat", [], 0, 0, 1⟩ (some []) 0 = none
    from by decide] at hq
  exact Option.noConfusion hq

/-- The recency-plus-frequency part of the score is nonnegative. -/
theorem recencyFreqBase_nonneg (m : Memory) (now : ℚ) :
    0 ≤ qAdd (qMul (jsMax 0 (qSub 10 (qDivNat (qSub now m.timestamp)
        (1000 * 60 * 60 * 24)))) (mkRat 1 10))
      (qMul (qOfNat m.accessCount) (mkRat 1 20)) := by
  rw [qAdd_eq, qMul_eq, qMul_eq, jsMax_eq, qOfNat_eq]
  have hmk10 : 0 ≤ (mkRat 1 10 : ℚ) := by
    rw [Rat.mkRat_eq_divInt, Rat.divInt_eq_div]; norm_num
  have hmk20 : 0 ≤ (mkRat 1 20 : ℚ) := by
    rw [Rat.mkRat_eq_divInt, Rat.divInt_eq_div]; norm_num
  exact add_nonneg (mul_nonneg (le_max_left 0 _) hmk10)
    (mul_nonneg (Nat.cast_nonneg _) hmk20)

/-- The final `Math.min(base + t, 10)` clamp lies in `[0, 10]` when both
summands are nonnegative. -/
theorem jsMin_clamp_bounds {b t : ℚ} (hb : 0 ≤ b) (ht : 0 ≤ t) :
    0 ≤ jsMin (qAdd b t) 10 ∧ jsMin (qAdd b t) 10 ≤ 10 := by
  rw [jsMin_eq, qAdd_eq]
  exact ⟨le_min (by linarith) (by norm_num), min_le_right _ _⟩

/-- C4 amended: for every memory, time, and context whose keyword list
is not the (reachable but degenerate) empty array, the returned score is
a rational with `0 ≤ score ≤ 10`. -/
theorem relevance_score_bounded (m : Memory) (ks : Option (List String)) (now : ℚ)
    (h : ks ≠ some []) :
    ∃ q, calculateRelevanceScore m ks now = some q ∧ 0 ≤ q ∧ q ≤ 10 := by
  simp only [calculateRelevanceScore]
  rcases ks with _ | l
  · simp only [contextOverlapTerm]
    refine ⟨_, rfl, ?_, ?_⟩
    · exact (jsMin_clamp_bounds (recencyFreqBase_nonneg m now) le_rfl).1
    · exact (jsMin_clamp_bounds (recencyFreqBase_nonneg m now) le_rfl).2
  · have hl : l ≠ [] := fun e => h (by rw [e])
    have hlen : l.length ≠ 0 := fun e => hl (List.length_eq_zero.mp e)
    have ht : 0 ≤ qMul (qDivNat (qOfNat (keywordMatches m l)) l.length) 5 := by
      rw [qMul_eq, qDivNat_eq, qOfNat_eq]
      exact mul_nonneg (div_nonneg (Nat.cast_nonneg _) (Nat.cast_nonneg _))
        (by norm_num)
    simp only [contextOverlapTerm, if_neg hlen]
    refine ⟨_, rfl, ?_, ?_⟩
    · exact (jsMin_clamp_bounds (recencyFreqBase_nonneg m now) ht).1
    · exact (jsMin_clamp_bounds (recencyFreqBase_nonneg m now) ht).2

/-- Witness for C4 amended at a concrete memory and keyword list. -/
theorem relevance_score_bounded_witness :
    ∃ q, calculateRelevanceScore
        ⟨"m1", "u1", ⟨0, "x"⟩, "note", "chat", ["budget"], 0, 0, 1⟩
        (some ["budget"]) 0 = some q ∧ 0 ≤ q ∧ q ≤ 10 :=
  relevance_score_bounded _ (some ["budget"]) 0 (by decide)

/-- C5: search threshold. Every result a search returns stems from a
stored record of the requesting user whose freshly recomputed relevance
score is a number strictly greater than 0.5 (and that score is the one
reported on the result); hence a record scoring ≤ 0.5 — or `NaN` — is
never included. -/
theorem search_results_strictly_above_threshold
    (st : Store) (uid query : String) (ck : Option (List String)) (limit : Nat)
    (now : ℚ) (resp : SearchResponse)
    (hresp : (searchMemories st uid query ck limit now).1 = some resp)
    (r : SearchResult) (hr : r ∈ resp.results) :
    ∃ m, m ∈ st.memories ∧ m.userId = uid ∧
      calculateRelevanceScore m (some (searchKeywords query ck)) now =
        some r.relevanceScore ∧
      (1/2 : ℚ) < r.relevanceScore := by
  unfold searchMemories at hresp
  rcases hfind : st.users.find? (fun u => u.id = uid) with _ | user <;>
    rw [hfind] at hresp
  · exact absurd hresp (by simp)
  · simp only [Option.some.injEq] at hresp
    subst hresp
    obtain ⟨sm, hsm, hrow⟩ := List.mem_filterMap.mp hr
    obtain ⟨hmem, huid, hscore, hthr⟩ := mem_searchSelected hsm
    rcases hq : sm.score with _ | q
    · rw [hq] at hthr
      exact absurd hthr (by simp [scoreAboveThreshold])
    · have hq2 : mkRat 1 2 < q := by
        rw [hq] at hthr
        simpa [scoreAboveThreshold] using hthr
      have hhalf : (mkRat 1 2 : ℚ) = 1/2 := by
        rw [Rat.mkRat_eq_divInt, Rat.divInt_eq_div]; norm_num
      have hrs : r.relevanceScore = q := by
        unfold decryptRow at hrow
        rcases hdec : decryptData sm.mem.encryptedContent user.privateKey with e | c <;>
          rw [hdec] at hrow
        · exact absurd hrow (by simp)
        · simp only [Option.some.injEq] at hrow
          subst hrow
          simp [hq]
      refine ⟨sm.mem, hmem, huid, ?_, ?_⟩
      · rw [hrs, ← hscore, hq]
      · rw [hrs, ← hhalf]; exact hq2

/-- Witness for C5: the single result of a concrete search carries score
6, above the threshold. -/
theorem search_results_strictly_above_threshold_witness :
    ∃ m, m ∈ demoStore1.memories ∧ m.userId = "u1" ∧
      calculateRelevanceScore m (some (searchKeywords "budget" none)) 0 =
        some ((⟨"m1", "budget meeting", "note", "chat", ["budget"], 0, 6⟩ :
          SearchResult).relevanceScore) ∧
      (1/2 : ℚ) < (⟨"m1", "budget meeting", "note", "chat", ["budget"], 0, 6⟩ :
          SearchResult).relevanceScore :=
  search_results_strictly_above_threshold demoStore1 "u1" "budget" none 20 0
    ⟨"budget", [⟨"m1", "budget meeting", "note", "chat", ["budget"], 0, 6⟩], 1⟩
    (by decide)
    ⟨"m1", "budget meeting", "note", "chat", ["budget"], 0, 6⟩ (by decide)

/-- C7: per-record decryption failure tolerance. Whenever the user id
resolves, the search returns a normal response (never a whole-request
failure), leaves the store untouched, every returned result stems from a
selected record whose decryption succeeded (a failing record yields no
result), and every selected record whose decryption succeeds still
appears in the results — the failure of one record never suppresses the
others. -/
theorem search_tolerates_decrypt_failure
    (st : Store) (uid query : String) (ck : Option (List String)) (limit : Nat)
    (now : ℚ) (user : User)
    (hu : st.users.find? (fun u => u.id = uid) = some user) :
    ∃ resp, (searchMemories st uid query ck limit now).1 = some resp ∧
      (searchMemories st uid query ck limit now).2 = st ∧
      resp.results =
        (searchSelected st uid query ck limit now).filterMap (decryptRow user) ∧
      (∀ r ∈ resp.results, ∃ sm ∈ searchSelected st uid query ck limit now,
        ∃ c, decryptData sm.mem.encryptedContent user.privateKey = .ok c ∧
          r = ⟨sm.mem.id, c, sm.mem.type, sm.mem.source, sm.mem.tags,
            sm.mem.timestamp, sm.score.getD 0⟩) ∧
      (∀ sm ∈ searchSelected st uid query ck limit now, ∀ c,
        decryptData sm.mem.encryptedContent user.privateKey = .ok c →
          (⟨sm.mem.id, c, sm.mem.type, sm.mem.source, sm.mem.tags,
            sm.mem.timestamp, sm.score.getD 0⟩ : SearchResult) ∈ resp.results) := by
  have h1 : searchMemories st uid query ck limit now =
      (some ⟨query,
        (searchSelected st uid query ck limit now).filterMap (decryptRow user),
        ((searchSelected st uid query ck limit now).filterMap
          (decryptRow user)).length⟩, st) := by
    unfold searchMemories
    rw [hu]
  refine ⟨_, by rw [h1], by rw [h1], rfl, ?_, ?_⟩
  · intro r hr
    obtain ⟨sm, hsm, hrow⟩ := List.mem_filterMap.mp hr
    refine ⟨sm, hsm, ?_⟩
    unfold decryptRow at hrow
    rcases hdec : decryptData sm.mem.encryptedContent user.privateKey with e | c <;>
      rw [hdec] at hrow
    · exact absurd hrow (by simp)
    · simp only [Option.some.injEq] at hrow
      exact ⟨c, rfl, hrow.symm⟩
  · intro sm hsm c hdec
    refine List.mem_filterMap.mpr ⟨sm, hsm, ?_⟩
    unfold decryptRow
    rw [hdec]

/-- Witness for C7 at a store holding one decryptable and one
undecryptable record: the search still answers and the store survives. -/
theorem search_tolerates_decrypt_failure_witness :
    ∃ resp, (searchMemories demoMixedStore "u1" "budget" none 20 0).1 = some resp ∧
      (searchMemories demoMixedStore "u1" "budget" none 20 0).2 = demoMixedStore := by
  obtain ⟨resp, ha, hb, -, -, -⟩ :=
    search_tolerates_decrypt_failure demoMixedStore "u1" "budget" none 20 0
      demoUser (by decide)
  exact ⟨resp, ha, hb⟩

/-- C9: list ordering. The list handler's output is a slice — taken
after sorting — of a list that permutes the user's filtered records, is
sorted by timestamp descending (newest first), and preserves, for every
timestamp value, the store (insertion) order of the equally-timestamped
records. -/
theorem list_sorted_newest_first_stable_then_paginated
    (st : Store) (uid : String) (p : ListParams) :
    ∃ l : List Memory,
      l.Perm (listFiltered st uid p) ∧
      l.Pairwise (fun a b => b.timestamp ≤ a.timestamp) ∧
      (∀ t : ℚ, l.filter (fun m => decide (m.timestamp = t)) =
        (listFiltered st uid p).filter (fun m => decide (m.timestamp = t))) ∧
      ∃ s e : Nat,
        (listMemories st uid p).1.memories = ((l.take e).drop s).map summaryOf :=
  ⟨sortDescBy (fun m : Memory => m.timestamp) (listFiltered st uid p),
    sortDescBy_perm _ _,
    sortDescBy_pairwise _ _,
    fun t => sortDescBy_filter_eq _ t _,
    ((listSliceStart p).getD 0).toNat, ((listSliceEnd p).getD 0).toNat, rfl⟩

/-- The list handler never changes the store. -/
theorem listMemories_store_eq (st : Store) (uid : String) (p : ListParams) :
    (listMemories st uid p).2 = st := rfl

/-- The search handler never changes the store: the `accessCount`
increment lands on the shallow copies, never on `db.memories`. -/
theorem searchMemories_store_eq (st : Store) (uid query : String)
    (ck : Option (List String)) (limit : Nat) (now : ℚ) :
    (searchMemories st uid query ck limit now).2 = st := by
  unfold searchMemories
  rcases hfind : st.users.find? (fun u => u.id = uid) with _ | user <;>
    rw [hfind]

/-- Creating either leaves the store unchanged (unknown user) or appends
one record with `relevanceScore = 1.0`. -/
theorem createMemory_memories_eq (st : Store) (uid c t s : String)
    (tags : List String) (mid : String) (now : ℚ) :
    (createMemory st uid c t s tags mid now).2.memories = st.memories ∨
    ∃ user : User, (createMemory st uid c t s tags mid now).2.memories =
      st.memories ++
        [⟨mid, user.id, encryptData c user.publicKey, t, s, tags, now, 0, 1⟩] := by
  unfold createMemory
  rcases hfind : st.users.find? (fun u => u.id = uid) with _ | user <;> rw [hfind]
  · exact Or.inl rfl
  · exact Or.inr ⟨user, rfl⟩

/-- Every operation preserves the invariant that all stored records have
`relevanceScore = 1.0`. -/
theorem applyOp_preserves_score_one (st : Store) (op : Op)
    (h : ∀ m ∈ st.memories, m.relevanceScore = 1) :
    ∀ m ∈ (applyOp st op).memories, m.relevanceScore = 1 := by
  rcases op with ⟨uid, c, t, s, tags, mid, now⟩ | ⟨uid, p⟩ | ⟨uid, q, ck, lim, now⟩
  · show ∀ m ∈ (createMemory st uid c t s tags mid now).2.memories, _
    rcases createMemory_memories_eq st uid c t s tags mid now with he | ⟨user, he⟩ <;>
      rw [he]
    · exact h
    · intro m hm
      rcases List.mem_append.mp hm with hm | hm
      · exact h m hm
      · rw [List.mem_singleton.mp hm]
  · exact h
  · intro m hm
    rw [show applyOp st (Op.search uid q ck lim now) = st from
      searchMemories_store_eq st uid q ck lim now] at hm
    exact h m hm

/-- The invariant holds after any operation sequence from a store with
the invariant. -/
theorem execOps_preserves_score_one (ops : List Op) (st : Store)
    (h : ∀ m ∈ st.memories, m.relevanceScore = 1) :
    ∀ m ∈ (execOps st ops).memories, m.relevanceScore = 1 := by
  induction ops generalizing st with
  | nil => exact h
  | cons op ops ih => exact ih (applyOp st op) (applyOp_preserves_score_one st op h)

/-- C10: the `relevanceScore` reported by the list handler is always the
constant 1.0 assigned at creation, whatever sequence of create, list and
search requests produced the store — search recomputes scores only on
shallow copies, so the stored field is never updated. -/
theorem listed_relevance_score_always_one
    (users : List User) (ops : List Op) (uid : String) (p : ListParams)
    (s : MemorySummary)
    (hs : s ∈ (listMemories (execOps ⟨users, []⟩ ops) uid p).1.memories) :
    s.relevanceScore = 1 := by
  obtain ⟨m, hm, rfl⟩ := List.mem_map.mp hs
  have h1 := mem_of_mem_jsSlice hm
  have h2 := (sortDescBy_perm (fun m : Memory => m.timestamp) _).mem_iff.mp h1
  have h3 := applyListFilters_subset p _ m h2
  have h4 := (List.mem_filter.mp h3).1
  exact execOps_preserves_score_one ops ⟨users, []⟩ (by simp) m h4

/-- Witness for C10: after a create followed by a search that returned
the record, the listed summary still reports `relevanceScore = 1`. -/
theorem listed_relevance_score_always_one_witness :
    (⟨"m1", "note", "chat", ["budget"], 0, 0, 1⟩ : MemorySummary).relevanceScore = 1 :=
  listed_relevance_score_always_one [demoUser]
    [Op.create "u1" "budget meeting" "note" "chat" ["budget"] "m1" 0,
     Op.search "u1" "budget" none 20 0]
    "u1" defaultListParams
    ⟨"m1", "note", "chat", ["budget"], 0, 0, 1⟩ (by decide)
